import Mathlib

/-!
Verification of the deployed-item ledger (`DeploymentBuilder`) of punktf,
shallowly embedded from `src/deploy/deployment.rs`.

Modelling choices:
* `PathBuf` is modelled as `Nat` (paths only need decidable equality);
  timestamps (`DateTime<Utc>`) as `Nat`, with `Utc::now()` passed explicitly.
* The `HashMap<PathBuf, DeployedItem>` is modelled as an association list
  with overwrite-on-insert (`mapInsert`) and key lookup (`mapGet`),
  matching `HashMap::insert` / `HashMap::get` semantics.
* The unbounded `loop` in `get_item` / `get_deployed_item` is modelled with
  explicit fuel, one unit per loop iteration; an outer `none` means the
  loop has not returned within that many iterations, so "the call returns
  `r`" is "for some amount of fuel the result is `some r`".
-/

namespace Punktf

/-- Modelled from the spec (§3, glossary; `Priority` is not under `src/`):
a numeric priority used as tie-breaker among entries for the same target. -/
abbrev Priority := Int

/-- Modelled from the spec (§3 "Dotfile Entry"; `Item` is not under `src/`):
a configured mapping from a source path to an optional explicit target
override with an optional numeric priority. -/
structure Item where
  path : Nat
  target : Option Nat
  priority : Option Priority
deriving DecidableEq, Repr

/-- Modelled from the spec (§3 "Item Status"; `ItemStatus` is not under
`src/`): `Success` or `Failed(reason)`. -/
inductive ItemStatus where
  | success
  | failed (reason : String)
deriving DecidableEq, Repr

/-- `ItemStatus::is_success` as used by `get_deployed_item`/`is_deployed`. -/
def ItemStatus.is_success : ItemStatus → Bool
  | .success => true
  | .failed _ => false

/-- Modelled from the spec (§3 "Deployed Item"; `DeployedItemKind` is not
under `src/`): either a concrete `Item` or a back-reference to a parent
target path. -/
inductive DeployedItemKind where
  | item (item : Item)
  | child (parent : Nat)
deriving DecidableEq, Repr

/-- Modelled from the spec (§3 "Deployed Item"; `DeployedItem` is not under
`src/`): a ledger entry, a kind plus the recorded status. -/
structure DeployedItem where
  kind : DeployedItemKind
  status : ItemStatus
deriving DecidableEq, Repr

/-- `DeploymentStatus` of `deployment.rs`. -/
inductive DeploymentStatus where
  | success
  | failed (reason : String)
deriving DecidableEq, Repr

/-- The frozen `Deployment` record of `deployment.rs`. -/
structure Deployment where
  time_start : Nat
  time_end : Nat
  status : DeploymentStatus
  items : List (Nat × DeployedItem)
deriving DecidableEq, Repr

/-- The mutable builder of `deployment.rs` (its `items: HashMap` modelled
as an association list). -/
structure DeploymentBuilder where
  time_start : Nat
  items : List (Nat × DeployedItem)
deriving DecidableEq, Repr

/-- `HashMap::insert`: store `v` under key `p`, overwriting any prior entry
for `p`. -/
def mapInsert (l : List (Nat × DeployedItem)) (p : Nat) (v : DeployedItem) :
    List (Nat × DeployedItem) :=
  (p, v) :: l.filter (fun e => !(e.1 == p))

/-- `HashMap::get`. -/
def mapGet (l : List (Nat × DeployedItem)) (p : Nat) : Option DeployedItem :=
  (l.find? (fun e => e.1 == p)).map (·.2)

/-- `DeploymentBuilder::add_item`. -/
def DeploymentBuilder.add_item (b : DeploymentBuilder) (path : Nat)
    (item : Item) (status : ItemStatus) : DeploymentBuilder :=
  { b with items := mapInsert b.items path ⟨.item item, status⟩ }

/-- `DeploymentBuilder::add_child`. -/
def DeploymentBuilder.add_child (b : DeploymentBuilder) (path parent : Nat)
    (status : ItemStatus) : DeploymentBuilder :=
  { b with items := mapInsert b.items path ⟨.child parent, status⟩ }

/-- `DeploymentBuilder::contains`. -/
def DeploymentBuilder.contains (b : DeploymentBuilder) (path : Nat) : Bool :=
  (mapGet b.items path).isSome

/-- `DeploymentBuilder::get_item`, with fuel for the source's unbounded
`loop` (one unit per iteration): `none` means the loop has not returned
within `fuel` iterations; `some r` means the call returns `r`. -/
def DeploymentBuilder.get_item_fuel (b : DeploymentBuilder) :
    Nat → Nat → Option (Option Item)
  | 0, _ => none
  | fuel + 1, path =>
    match mapGet b.items path with
    | none => some none
    | some v =>
      match v.kind with
      | .item item => some (some item)
      | .child parent => b.get_item_fuel fuel parent

/-- `DeploymentBuilder::get_deployed_item`, with fuel as in
`get_item_fuel`; the loop first checks the entry's status and returns
`None` unless it `is_success`. -/
def DeploymentBuilder.get_deployed_item_fuel (b : DeploymentBuilder) :
    Nat → Nat → Option (Option Item)
  | 0, _ => none
  | fuel + 1, path =>
    match mapGet b.items path with
    | none => some none
    | some v =>
      if v.status.is_success then
        match v.kind with
        | .item item => some (some item)
        | .child parent => b.get_deployed_item_fuel fuel parent
      else some none

/-- `DeploymentBuilder::get_priority`:
`self.get_deployed_item(path).map(|item| item.priority)`, under fuel. -/
def DeploymentBuilder.get_priority_fuel (b : DeploymentBuilder)
    (fuel path : Nat) : Option (Option (Option Priority)) :=
  (b.get_deployed_item_fuel fuel path).map (fun r => r.map Item.priority)

/-- `DeploymentBuilder::is_deployed`. -/
def DeploymentBuilder.is_deployed (b : DeploymentBuilder) (path : Nat) :
    Option Bool :=
  (mapGet b.items path).map (fun item => item.status.is_success)

/-- `DeploymentBuilder::success`; `Utc::now()` is passed in as `now`. -/
def DeploymentBuilder.success (b : DeploymentBuilder) (now : Nat) :
    Deployment :=
  { time_start := b.time_start, time_end := now,
    status := .success, items := b.items }

/-- `DeploymentBuilder::failed`; `Utc::now()` is passed in as `now`. -/
def DeploymentBuilder.failed (b : DeploymentBuilder) (reason : String)
    (now : Nat) : Deployment :=
  { time_start := b.time_start, time_end := now,
    status := .failed reason, items := b.items }

/-- The call `get_item(path)` returns `r` (for some sufficient fuel). -/
def GetItemReturns (b : DeploymentBuilder) (path : Nat) (r : Option Item) :
    Prop :=
  ∃ n, b.get_item_fuel n path = some r

/-- The call `get_deployed_item(path)` returns `r`. -/
def GetDeployedItemReturns (b : DeploymentBuilder) (path : Nat)
    (r : Option Item) : Prop :=
  ∃ n, b.get_deployed_item_fuel n path = some r

/-- The call `get_priority(path)` returns `r`. -/
def GetPriorityReturns (b : DeploymentBuilder) (path : Nat)
    (r : Option (Option Priority)) : Prop :=
  ∃ n, b.get_priority_fuel n path = some r

/-- The call `get_item(path)` terminates (returns at all). -/
def GetItemTerminates (b : DeploymentBuilder) (path : Nat) : Prop :=
  ∃ n, (b.get_item_fuel n path).isSome

/-- The call `get_deployed_item(path)` terminates (returns at all). -/
def GetDeployedItemTerminates (b : DeploymentBuilder) (path : Nat) : Prop :=
  ∃ n, (b.get_deployed_item_fuel n path).isSome

/-- The `Child` chain starting at `path` is finite (acyclic): it ends at a
missing entry or at an `Item` kind after finitely many parent links. -/
inductive ChainFinite (b : DeploymentBuilder) : Nat → Prop where
  | missing {path} : mapGet b.items path = none → ChainFinite b path
  | item {path item status} :
      mapGet b.items path = some ⟨.item item, status⟩ → ChainFinite b path
  | child {path parent status} :
      mapGet b.items path = some ⟨.child parent, status⟩ →
      ChainFinite b parent → ChainFinite b path

/-- The chain from `path` reaches a root `Item` kind `item`, statuses
ignored — the success condition of `get_item`. -/
inductive Resolves (b : DeploymentBuilder) : Nat → Item → Prop where
  | item {path item status} :
      mapGet b.items path = some ⟨.item item, status⟩ → Resolves b path item
  | child {path parent status item} :
      mapGet b.items path = some ⟨.child parent, status⟩ →
      Resolves b parent item → Resolves b path item

/-- The chain from `path` reaches a root `Item` kind `item` with every node
on the way (the root included) of `Success` status — the success condition
of `get_deployed_item`. -/
inductive ResolvesDeployed (b : DeploymentBuilder) : Nat → Item → Prop where
  | item {path item} :
      mapGet b.items path = some ⟨.item item, .success⟩ →
      ResolvesDeployed b path item
  | child {path parent item} :
      mapGet b.items path = some ⟨.child parent, .success⟩ →
      ResolvesDeployed b parent item → ResolvesDeployed b path item

/-- The chain from `path` hits a missing entry (statuses ignored) — the
condition under which `get_item` returns `None`. -/
inductive ChainMisses (b : DeploymentBuilder) : Nat → Prop where
  | here {path} : mapGet b.items path = none → ChainMisses b path
  | up {path parent status} :
      mapGet b.items path = some ⟨.child parent, status⟩ →
      ChainMisses b parent → ChainMisses b path

/-- The walk of `get_deployed_item` from `path` is blocked: after finitely
many `Success` child links it hits a missing entry or a non-`Success`
node — the condition under which `get_deployed_item` returns `None`. -/
inductive DeployedBlocked (b : DeploymentBuilder) : Nat → Prop where
  | missing {path} : mapGet b.items path = none → DeployedBlocked b path
  | bad_status {path v} :
      mapGet b.items path = some v → v.status.is_success = false →
      DeployedBlocked b path
  | up {path parent} :
      mapGet b.items path = some ⟨.child parent, .success⟩ →
      DeployedBlocked b parent → DeployedBlocked b path

/-! ### Basic lemmas about the map model and statuses -/

theorem is_success_true_iff (st : ItemStatus) :
    st.is_success = true ↔ st = .success := by
  cases st <;> simp [ItemStatus.is_success]

theorem mapGet_insert (l : List (Nat × DeployedItem)) (q p : Nat)
    (v : DeployedItem) :
    mapGet (mapInsert l q v) p = if q = p then some v else mapGet l p := by
  by_cases h : q = p
  · subst h
    simp [mapGet, mapInsert]
  · simp only [mapGet, mapInsert, if_neg h]
    rw [List.find?_cons_of_neg _ (by simp [h])]
    congr 1
    induction l with
    | nil => rfl
    | cons e rest ih =>
      by_cases heq : e.1 = q
      · have hne : ¬ e.1 = p := by omega
        rw [List.filter_cons_of_neg (by simp [heq]), ih,
          List.find?_cons_of_neg _ (by simp [hne])]
      · rw [List.filter_cons_of_pos (by simp [heq])]
        by_cases he : e.1 = p
        · rw [List.find?_cons_of_pos _ (by simp [he]),
            List.find?_cons_of_pos _ (by simp [he])]
        · rw [List.find?_cons_of_neg _ (by simp [he]),
            List.find?_cons_of_neg _ (by simp [he]), ih]

/-! ### Characterization of `get_item` -/

theorem resolves_of_get_item_fuel {b : DeploymentBuilder} {n path : Nat}
    {item : Item} (h : b.get_item_fuel n path = some (some item)) :
    Resolves b path item := by
  induction n generalizing path with
  | zero => simp [DeploymentBuilder.get_item_fuel] at h
  | succ n ih =>
    rw [DeploymentBuilder.get_item_fuel] at h
    cases hg : mapGet b.items path with
    | none => simp [hg] at h
    | some v =>
      obtain ⟨kind, status⟩ := v
      cases hk : kind with
      | item it =>
        simp [hg, hk] at h
        exact h ▸ Resolves.item (hk ▸ hg)
      | child parent =>
        simp [hg, hk] at h
        exact Resolves.child (hk ▸ hg) (ih h)

theorem get_item_fuel_of_resolves {b : DeploymentBuilder} {path : Nat}
    {item : Item} (h : Resolves b path item) :
    ∃ n, b.get_item_fuel n path = some (some item) := by
  induction h with
  | item hg => exact ⟨1, by simp [DeploymentBuilder.get_item_fuel, hg]⟩
  | child hg _ ih =>
    obtain ⟨n, hn⟩ := ih
    exact ⟨n + 1, by simp [DeploymentBuilder.get_item_fuel, hg, hn]⟩

theorem chainMisses_of_get_item_fuel {b : DeploymentBuilder} {n path : Nat}
    (h : b.get_item_fuel n path = some none) : ChainMisses b path := by
  induction n generalizing path with
  | zero => simp [DeploymentBuilder.get_item_fuel] at h
  | succ n ih =>
    rw [DeploymentBuilder.get_item_fuel] at h
    cases hg : mapGet b.items path with
    | none => exact ChainMisses.here hg
    | some v =>
      obtain ⟨kind, status⟩ := v
      cases hk : kind with
      | item it => simp [hg, hk] at h
      | child parent =>
        simp [hg, hk] at h
        exact ChainMisses.up (hk ▸ hg) (ih h)

theorem get_item_fuel_of_chainMisses {b : DeploymentBuilder} {path : Nat}
    (h : ChainMisses b path) : ∃ n, b.get_item_fuel n path = some none := by
  induction h with
  | here hg => exact ⟨1, by simp [DeploymentBuilder.get_item_fuel, hg]⟩
  | up hg _ ih =>
    obtain ⟨n, hn⟩ := ih
    exact ⟨n + 1, by simp [DeploymentBuilder.get_item_fuel, hg, hn]⟩

theorem get_item_terminates_of_chainFinite {b : DeploymentBuilder}
    {path : Nat} (h : ChainFinite b path) : GetItemTerminates b path := by
  induction h with
  | missing hg => exact ⟨1, by simp [DeploymentBuilder.get_item_fuel, hg]⟩
  | item hg => exact ⟨1, by simp [DeploymentBuilder.get_item_fuel, hg]⟩
  | child hg _ ih =>
    obtain ⟨n, hn⟩ := ih
    exact ⟨n + 1, by simpa [DeploymentBuilder.get_item_fuel, hg] using hn⟩

/-! ### Characterization of `get_deployed_item` -/

theorem resolvesDeployed_of_fuel {b : DeploymentBuilder} {n path : Nat}
    {item : Item} (h : b.get_deployed_item_fuel n path = some (some item)) :
    ResolvesDeployed b path item := by
  induction n generalizing path with
  | zero => simp [DeploymentBuilder.get_deployed_item_fuel] at h
  | succ n ih =>
    rw [DeploymentBuilder.get_deployed_item_fuel] at h
    cases hg : mapGet b.items path with
    | none => simp [hg] at h
    | some v =>
      obtain ⟨kind, status⟩ := v
      by_cases hs : status.is_success = true
      · have hsucc : status = .success := (is_success_true_iff _).mp hs
        subst hsucc
        cases hk : kind with
        | item it =>
          simp [hg, hk, ItemStatus.is_success] at h
          exact h ▸ ResolvesDeployed.item (hk ▸ hg)
        | child parent =>
          simp [hg, hk, ItemStatus.is_success] at h
          exact ResolvesDeployed.child (hk ▸ hg) (ih h)
      · simp [hg, hs] at h

theorem fuel_of_resolvesDeployed {b : DeploymentBuilder} {path : Nat}
    {item : Item} (h : ResolvesDeployed b path item) :
    ∃ n, b.get_deployed_item_fuel n path = some (some item) := by
  induction h with
  | item hg =>
    exact ⟨1, by
      simp [DeploymentBuilder.get_deployed_item_fuel, hg, ItemStatus.is_success]⟩
  | child hg _ ih =>
    obtain ⟨n, hn⟩ := ih
    exact ⟨n + 1, by
      simp [DeploymentBuilder.get_deployed_item_fuel, hg,
        ItemStatus.is_success, hn]⟩

theorem deployedBlocked_of_fuel {b : DeploymentBuilder} {n path : Nat}
    (h : b.get_deployed_item_fuel n path = some none) :
    DeployedBlocked b path := by
  induction n generalizing path with
  | zero => simp [DeploymentBuilder.get_deployed_item_fuel] at h
  | succ n ih =>
    rw [DeploymentBuilder.get_deployed_item_fuel] at h
    cases hg : mapGet b.items path with
    | none => exact DeployedBlocked.missing hg
    | some v =>
      obtain ⟨kind, status⟩ := v
      by_cases hs : status.is_success = true
      · have hsucc : status = .success := (is_success_true_iff _).mp hs
        subst hsucc
        cases hk : kind with
        | item it => simp [hg, hk, ItemStatus.is_success] at h
        | child parent =>
          simp [hg, hk, ItemStatus.is_success] at h
          exact DeployedBlocked.up (hk ▸ hg) (ih h)
      · exact DeployedBlocked.bad_status hg (by simpa using hs)

theorem fuel_of_deployedBlocked {b : DeploymentBuilder} {path : Nat}
    (h : DeployedBlocked b path) :
    ∃ n, b.get_deployed_item_fuel n path = some none := by
  induction h with
  | missing hg =>
    exact ⟨1, by simp [DeploymentBuilder.get_deployed_item_fuel, hg]⟩
  | bad_status hg hs =>
    exact ⟨1, by simp [DeploymentBuilder.get_deployed_item_fuel, hg, hs]⟩
  | up hg _ ih =>
    obtain ⟨n, hn⟩ := ih
    exact ⟨n + 1, by
      simp [DeploymentBuilder.get_deployed_item_fuel, hg,
        ItemStatus.is_success, hn]⟩

theorem get_deployed_item_terminates_of_chainFinite {b : DeploymentBuilder}
    {path : Nat} (h : ChainFinite b path) :
    GetDeployedItemTerminates b path := by
  induction h with
  | missing hg =>
    exact ⟨1, by simp [DeploymentBuilder.get_deployed_item_fuel, hg]⟩
  | item hg =>
    refine ⟨1, ?_⟩
    rw [DeploymentBuilder.get_deployed_item_fuel, hg]
    dsimp only
    split <;> simp
  | child hg _ ih =>
    obtain ⟨n, hn⟩ := ih
    refine ⟨n + 1, ?_⟩
    rw [DeploymentBuilder.get_deployed_item_fuel, hg]
    dsimp only
    split
    · exact hn
    · simp

/-! ### Refinement of `get_item` by `get_deployed_item` -/

theorem get_item_fuel_of_deployed_fuel {b : DeploymentBuilder} {n path : Nat}
    {item : Item} (h : b.get_deployed_item_fuel n path = some (some item)) :
    b.get_item_fuel n path = some (some item) := by
  induction n generalizing path with
  | zero => simp [DeploymentBuilder.get_deployed_item_fuel] at h
  | succ n ih =>
    rw [DeploymentBuilder.get_deployed_item_fuel] at h
    rw [DeploymentBuilder.get_item_fuel]
    cases hg : mapGet b.items path with
    | none => simp [hg] at h
    | some v =>
      obtain ⟨kind, status⟩ := v
      by_cases hs : status.is_success = true
      · cases hk : kind with
        | item it =>
          simp [hg, hk, hs] at h
          simp [hg, hk, h]
        | child parent =>
          simp [hg, hk, hs] at h
          simp only [hg]
          exact ih h
      · simp [hg, hs] at h

/-! ### Missing links force `None` from both lookups -/

theorem deployed_none_of_chainMisses {b : DeploymentBuilder} {path : Nat}
    (h : ChainMisses b path) : GetDeployedItemReturns b path none := by
  induction h with
  | here hg =>
    exact ⟨1, by simp [DeploymentBuilder.get_deployed_item_fuel, hg]⟩
  | up hg hm ih =>
    rename_i path parent status
    by_cases hs : status.is_success = true
    · obtain ⟨n, hn⟩ := ih
      exact ⟨n + 1, by
        simp [DeploymentBuilder.get_deployed_item_fuel, hg, hs, hn]⟩
    · exact ⟨1, by simp [DeploymentBuilder.get_deployed_item_fuel, hg, hs]⟩

/-! ### Cyclic chains make the lookups diverge -/

theorem get_item_fuel_self_cycle {b : DeploymentBuilder} {p : Nat}
    {status : ItemStatus}
    (hp : mapGet b.items p = some ⟨.child p, status⟩) :
    ∀ n, b.get_item_fuel n p = none := by
  intro n
  induction n with
  | zero => rfl
  | succ n ih => simpa [DeploymentBuilder.get_item_fuel, hp] using ih

theorem get_deployed_fuel_self_cycle {b : DeploymentBuilder} {p : Nat}
    (hp : mapGet b.items p = some ⟨.child p, .success⟩) :
    ∀ n, b.get_deployed_item_fuel n p = none := by
  intro n
  induction n with
  | zero => rfl
  | succ n ih =>
    simpa [DeploymentBuilder.get_deployed_item_fuel, hp,
      ItemStatus.is_success] using ih

theorem not_resolvesDeployed_self_cycle {b : DeploymentBuilder} {p : Nat}
    (hp : mapGet b.items p = some ⟨.child p, .success⟩) :
    ¬ ∃ item, ResolvesDeployed b p item := by
  rintro ⟨item, h⟩
  have key : ∀ r it, ResolvesDeployed b r it → r = p → False := by
    intro r it hres
    induction hres with
    | item hg =>
      rintro rfl
      rw [hp] at hg
      simp at hg
    | child hg _ ih =>
      rintro rfl
      rw [hp] at hg
      simp only [Option.some.injEq, DeployedItem.mk.injEq,
        DeployedItemKind.child.injEq] at hg
      exact ih hg.1.symm
  exact key p item h rfl

/-! ### Sequences of mutating calls on the builder -/

/-- One mutating call on the builder: `add_item` or `add_child`. -/
inductive BuilderOp where
  | add_item (path : Nat) (item : Item) (status : ItemStatus)
  | add_child (path parent : Nat) (status : ItemStatus)
deriving DecidableEq, Repr

/-- The target path a call inserts under. -/
def BuilderOp.path : BuilderOp → Nat
  | .add_item p _ _ => p
  | .add_child p _ _ => p

/-- The ledger entry a call inserts. -/
def BuilderOp.entry : BuilderOp → DeployedItem
  | .add_item _ item st => ⟨.item item, st⟩
  | .add_child _ parent st => ⟨.child parent, st⟩

/-- Perform one call on the builder. -/
def applyOp (b : DeploymentBuilder) : BuilderOp → DeploymentBuilder
  | .add_item p item st => b.add_item p item st
  | .add_child p parent st => b.add_child p parent st

/-- Perform a sequence of calls, first call first. -/
def runOps (b : DeploymentBuilder) (ops : List BuilderOp) : DeploymentBuilder :=
  ops.foldl applyOp b

theorem applyOp_items (b : DeploymentBuilder) (op : BuilderOp) :
    (applyOp b op).items = mapInsert b.items op.path op.entry := by
  cases op <;> rfl

theorem mapInsert_keys_nodup {l : List (Nat × DeployedItem)}
    (h : (l.map Prod.fst).Nodup) (p : Nat) (v : DeployedItem) :
    ((mapInsert l p v).map Prod.fst).Nodup := by
  unfold mapInsert
  simp only [List.map_cons, List.nodup_cons]
  constructor
  · intro hmem
    obtain ⟨e, he, hep⟩ := List.mem_map.mp hmem
    obtain ⟨_, hkeep⟩ := List.mem_filter.mp he
    simp [hep] at hkeep
  · exact ((List.filter_sublist l).map Prod.fst).nodup h

theorem runOps_keys_nodup {b : DeploymentBuilder}
    (h : (b.items.map Prod.fst).Nodup) (ops : List BuilderOp) :
    ((runOps b ops).items.map Prod.fst).Nodup := by
  induction ops generalizing b with
  | nil => exact h
  | cons op rest ih =>
    exact ih (b := applyOp b op)
      (by rw [applyOp_items]; exact mapInsert_keys_nodup h _ _)

theorem runOps_mapGet (b : DeploymentBuilder) (ops : List BuilderOp)
    (p : Nat) :
    mapGet (runOps b ops).items p =
      match ops.reverse.find? (fun op => op.path == p) with
      | some op => some op.entry
      | none => mapGet b.items p := by
  induction ops generalizing b with
  | nil => rfl
  | cons op rest ih =>
    show mapGet (runOps (applyOp b op) rest).items p = _
    rw [ih (applyOp b op), List.reverse_cons, List.find?_append]
    cases hfind : rest.reverse.find? (fun o => o.path == p) with
    | some o => simp [hfind, Option.or]
    | none =>
      simp only [hfind, Option.or]
      rw [applyOp_items, mapGet_insert]
      by_cases hp : op.path = p
      · simp [hp]
      · simp [hp, List.find?_cons, beq_iff_eq]

/-! ### Concrete example ledgers used in witnesses and counterexamples -/

/-- A concrete dotfile entry. -/
def exItem : Item := ⟨0, none, some 7⟩

/-- A two-node chain: a successful root `Item` at path 0, a successful
`Child` at path 1 pointing at it. -/
def exChain : DeploymentBuilder :=
  ((DeploymentBuilder.mk 0 []).add_item 0 exItem .success).add_child 1 0
    .success

/-- A `Child` at path 0 whose parent path 1 is absent from the ledger. -/
def exMissing : DeploymentBuilder :=
  (DeploymentBuilder.mk 0 []).add_child 0 1 .success

/-- A root `Item` at path 0 recorded with `Failed` status. -/
def exFailedRoot : DeploymentBuilder :=
  (DeploymentBuilder.mk 0 []).add_item 0 exItem (.failed "io error")

/-- A self-referencing `Child` at path 0: a cyclic chain, reachable by the
single call `add_child(0, 0, Success)`. -/
def exSelfLoop : DeploymentBuilder :=
  (DeploymentBuilder.mk 0 []).add_child 0 0 .success

/-- A self-referencing `Child` at path 5, reachable by the single call
`add_child(5, 5, Success)`. -/
def exSelfLoopB : DeploymentBuilder :=
  (DeploymentBuilder.mk 0 []).add_child 5 5 .success

/-! ### The claims -/

/-- Claim C1, counterexample: acyclicity of `Child` chains is not enforced
by construction — the single call `add_child(0, 0, Success)` yields a
reachable builder state on which neither `get_item(0)` nor
`get_deployed_item(0)` terminates (no amount of loop iterations makes the
call return). -/
theorem claim1_counterexample :
    ¬ GetItemTerminates exSelfLoop 0 ∧
      ¬ GetDeployedItemTerminates exSelfLoop 0 := by
  have hp : mapGet exSelfLoop.items 0 = some ⟨.child 0, .success⟩ := rfl
  constructor
  · rintro ⟨n, hn⟩
    rw [get_item_fuel_self_cycle hp n] at hn
    simp at hn
  · rintro ⟨n, hn⟩
    rw [get_deployed_fuel_self_cycle hp n] at hn
    simp at hn

/-- Claim C1, amended: `get_item` and `get_deployed_item` terminate on
every path whose `Child` chain is finite (acyclic); the restriction is
needed because `add_child` itself does not prevent cyclic chains. -/
theorem claim1_termination_of_finite_chain (b : DeploymentBuilder)
    (path : Nat) (h : ChainFinite b path) :
    GetItemTerminates b path ∧ GetDeployedItemTerminates b path :=
  ⟨get_item_terminates_of_chainFinite h,
    get_deployed_item_terminates_of_chainFinite h⟩

/-- Witness for claim C1's amended theorem at a concrete two-node chain. -/
theorem claim1_witness :
    ChainFinite exChain 1 ∧
      (GetItemTerminates exChain 1 ∧ GetDeployedItemTerminates exChain 1) := by
  have hfin : ChainFinite exChain 1 :=
    @ChainFinite.child exChain 1 0 .success rfl
      (@ChainFinite.item exChain 0 exItem .success rfl)
  exact ⟨hfin, claim1_termination_of_finite_chain exChain 1 hfin⟩

/-- Claim C2, counterexample: on the reachable state produced by
`add_child(5, 5, Success)`, the chain from path 5 never reaches a root
`Item` (so the claim's success condition fails), yet `get_deployed_item(5)`
does not return `None` — the call never returns at all. -/
theorem claim2_counterexample :
    (¬ ∃ item, ResolvesDeployed exSelfLoopB 5 item) ∧
      ¬ GetDeployedItemReturns exSelfLoopB 5 none := by
  have hp : mapGet exSelfLoopB.items 5 = some ⟨.child 5, .success⟩ := rfl
  refine ⟨not_resolvesDeployed_self_cycle hp, ?_⟩
  rintro ⟨n, hn⟩
  rw [get_deployed_fuel_self_cycle hp n] at hn
  cases hn

/-- Claim C2, amended: `get_deployed_item(path)` returns `Some item`
exactly when the entry at `path` exists, every `Child` link up to a root
`Item` is present, and every node on that chain (root included) has
`Success` status; otherwise — provided the `Child` chain from `path` is
finite — it returns `None` (on a cyclic all-`Success` chain the call never
returns). -/
theorem claim2_get_deployed_item_characterization (b : DeploymentBuilder)
    (path : Nat) :
    (∀ item, GetDeployedItemReturns b path (some item) ↔
      ResolvesDeployed b path item) ∧
    (ChainFinite b path → (¬ ∃ item, ResolvesDeployed b path item) →
      GetDeployedItemReturns b path none) := by
  constructor
  · intro item
    constructor
    · rintro ⟨n, hn⟩
      exact resolvesDeployed_of_fuel hn
    · exact fuel_of_resolvesDeployed
  · intro hfin hnone
    obtain ⟨n, hn⟩ := get_deployed_item_terminates_of_chainFinite hfin
    obtain ⟨r, hr⟩ := Option.isSome_iff_exists.mp hn
    cases r with
    | none => exact ⟨n, hr⟩
    | some it => exact absurd ⟨it, resolvesDeployed_of_fuel hr⟩ hnone

/-- Witness for claim C2's theorem at a root `Item` with `Failed` status:
the chain is finite, no all-`Success` chain exists, and the lookup indeed
returns `None`. -/
theorem claim2_witness :
    ChainFinite exFailedRoot 0 ∧ GetDeployedItemReturns exFailedRoot 0 none := by
  have hg0 : mapGet exFailedRoot.items 0 =
      some ⟨.item exItem, .failed "io error"⟩ := rfl
  have hfin : ChainFinite exFailedRoot 0 :=
    @ChainFinite.item exFailedRoot 0 exItem (.failed "io error") hg0
  have hnone : ¬ ∃ item, ResolvesDeployed exFailedRoot 0 item := by
    rintro ⟨item, h⟩
    cases h with
    | item hg => rw [hg0] at hg; simp at hg
    | child hg _ => rw [hg0] at hg; simp at hg
  exact ⟨hfin,
    (claim2_get_deployed_item_characterization exFailedRoot 0).2 hfin hnone⟩

/-- Claim C3: on every path whose `Child` chain has finite depth,
`get_item` terminates; it returns the root entry's underlying `Item`
exactly when the chain reaches a root `Item` kind (statuses play no role:
`Resolves` ignores them), and returns `None` exactly when the queried path
or some parent link of the chain is missing from the ledger. -/
theorem claim3_get_item_characterization (b : DeploymentBuilder) (path : Nat)
    (h : ChainFinite b path) :
    GetItemTerminates b path ∧
    (∀ item, GetItemReturns b path (some item) ↔ Resolves b path item) ∧
    (GetItemReturns b path none ↔ ChainMisses b path) := by
  refine ⟨get_item_terminates_of_chainFinite h, ?_, ?_⟩
  · intro item
    exact ⟨fun ⟨n, hn⟩ => resolves_of_get_item_fuel hn,
      get_item_fuel_of_resolves⟩
  · exact ⟨fun ⟨n, hn⟩ => chainMisses_of_get_item_fuel hn,
      get_item_fuel_of_chainMisses⟩

/-- Witness for claim C3 at a `Child` whose parent is absent: the chain is
finite and `get_item` returns `None`. -/
theorem claim3_witness :
    ChainFinite exMissing 0 ∧ GetItemReturns exMissing 0 none := by
  have hg1 : mapGet exMissing.items 1 = none := rfl
  have hg0 : mapGet exMissing.items 0 = some ⟨.child 1, .success⟩ := rfl
  have hfin : ChainFinite exMissing 0 :=
    @ChainFinite.child exMissing 0 1 .success hg0 (ChainFinite.missing hg1)
  have hmiss : ChainMisses exMissing 0 :=
    @ChainMisses.up exMissing 0 1 .success hg0 (ChainMisses.here hg1)
  exact ⟨hfin,
    ((claim3_get_item_characterization exMissing 0 hfin).2.2).mpr hmiss⟩

/-- Claim C4: `add_item` and `add_child` insert under the given path with
last-write-wins semantics — whatever the prior state of the ledger, after
the call the entry stored at `p` is exactly the newly inserted
`DeployedItem`. -/
theorem claim4_add_overwrites (b : DeploymentBuilder) (p parent : Nat)
    (item : Item) (st st' : ItemStatus) :
    mapGet (b.add_item p item st).items p = some ⟨.item item, st⟩ ∧
    mapGet (b.add_child p parent st').items p = some ⟨.child parent, st'⟩ := by
  constructor
  · show mapGet (mapInsert b.items p ⟨.item item, st⟩) p = _
    rw [mapGet_insert]
    simp
  · show mapGet (mapInsert b.items p ⟨.child parent, st'⟩) p = _
    rw [mapGet_insert]
    simp

/-- Claim C5: whenever the `Child` chain from the queried path hits a
parent path missing from the ledger, both `get_item` and
`get_deployed_item` return `None` ("not found"); in this embedding both
are total functions, so no panic is possible. -/
theorem claim5_missing_parent_returns_none (b : DeploymentBuilder)
    (path : Nat) (h : ChainMisses b path) :
    GetItemReturns b path none ∧ GetDeployedItemReturns b path none :=
  ⟨get_item_fuel_of_chainMisses h, deployed_none_of_chainMisses h⟩

/-- Witness for claim C5 at a `Child` whose parent is absent. -/
theorem claim5_witness :
    ChainMisses exMissing 0 ∧
      (GetItemReturns exMissing 0 none ∧
        GetDeployedItemReturns exMissing 0 none) := by
  have hmiss : ChainMisses exMissing 0 :=
    @ChainMisses.up exMissing 0 1 .success rfl (ChainMisses.here rfl)
  exact ⟨hmiss, claim5_missing_parent_returns_none exMissing 0 hmiss⟩

/-- Claim C6: after any sequence of `add_item`/`add_child` calls on a fresh
builder, the ledger holds at most one entry per distinct target path (its
key list has no duplicates), and the entry stored for each path is exactly
the one inserted by the last call that targeted that path (`none` if no
call did). -/
theorem claim6_ledger_unique_last_write (t : Nat) (ops : List BuilderOp)
    (p : Nat) :
    (((runOps (DeploymentBuilder.mk t []) ops).items.map Prod.fst).Nodup) ∧
    mapGet (runOps (DeploymentBuilder.mk t []) ops).items p =
      (ops.reverse.find? (fun op => op.path == p)).map BuilderOp.entry := by
  constructor
  · exact runOps_keys_nodup (by simp) ops
  · rw [runOps_mapGet]
    cases hfind : ops.reverse.find? (fun op => op.path == p) with
    | some o => rfl
    | none => rfl

/-- Claim C7: finalizing freezes the ledger without altering it —
`success` keeps the builder's items and start time and stamps overall
status `Success`; `failed reason` keeps them and stamps
`Failed(reason)`. -/
theorem claim7_finalize_freezes (b : DeploymentBuilder) (now : Nat)
    (reason : String) :
    ((b.success now).items = b.items ∧
      (b.success now).time_start = b.time_start ∧
      (b.success now).status = DeploymentStatus.success) ∧
    ((b.failed reason now).items = b.items ∧
      (b.failed reason now).time_start = b.time_start ∧
      (b.failed reason now).status = DeploymentStatus.failed reason) :=
  ⟨⟨rfl, rfl, rfl⟩, ⟨rfl, rfl, rfl⟩⟩

/-- Claim C8: `is_deployed` inspects only the entry stored at the queried
path — it answers `some true` exactly when an entry with `Success` status
is stored there and `some false` exactly when one with `Failed` status is;
it never follows `Child` links, so on a successful `Child` whose parent is
missing it answers `some true` even though `get_deployed_item` returns
`None`. -/
theorem claim8_is_deployed_local :
    (∀ (b : DeploymentBuilder) (path : Nat),
      (b.is_deployed path = some true ↔
        ∃ k, mapGet b.items path = some ⟨k, .success⟩) ∧
      (b.is_deployed path = some false ↔
        ∃ k r, mapGet b.items path = some ⟨k, .failed r⟩)) ∧
    (exMissing.is_deployed 0 = some true ∧
      GetDeployedItemReturns exMissing 0 none) := by
  constructor
  · intro b path
    unfold DeploymentBuilder.is_deployed
    cases hg : mapGet b.items path with
    | none => simp
    | some v =>
      obtain ⟨kind, status⟩ := v
      cases status with
      | success => simp [ItemStatus.is_success]
      | failed r => simp [ItemStatus.is_success]
  · exact ⟨rfl, ⟨2, by decide⟩⟩

/-- Claim C9: `get_priority` is exactly `get_deployed_item` mapped over the
item's `priority` field — it returns `some` of the root `Item`'s priority
precisely when the whole chain resolves with all-`Success` statuses, and
returns `None` precisely when the walk is blocked by a missing entry or a
non-`Success` node, although the priority itself does not depend on
deployment success. -/
theorem claim9_get_priority_characterization (b : DeploymentBuilder)
    (path : Nat) :
    (∀ n, b.get_priority_fuel n path =
      (b.get_deployed_item_fuel n path).map (fun r => r.map Item.priority)) ∧
    (∀ pr, GetPriorityReturns b path (some pr) ↔
      ∃ item, ResolvesDeployed b path item ∧ item.priority = pr) ∧
    (GetPriorityReturns b path none ↔ DeployedBlocked b path) := by
  refine ⟨fun n => rfl, ?_, ?_⟩
  · intro pr
    constructor
    · rintro ⟨n, hn⟩
      unfold DeploymentBuilder.get_priority_fuel at hn
      cases hd : b.get_deployed_item_fuel n path with
      | none => rw [hd] at hn; cases hn
      | some r =>
        rw [hd] at hn
        cases r with
        | none => simp at hn
        | some item =>
          simp at hn
          exact ⟨item, resolvesDeployed_of_fuel hd, hn⟩
    · rintro ⟨item, hres, hpr⟩
      obtain ⟨n, hn⟩ := fuel_of_resolvesDeployed hres
      exact ⟨n, by simp [DeploymentBuilder.get_priority_fuel, hn, hpr]⟩
  · constructor
    · rintro ⟨n, hn⟩
      unfold DeploymentBuilder.get_priority_fuel at hn
      cases hd : b.get_deployed_item_fuel n path with
      | none => rw [hd] at hn; cases hn
      | some r =>
        rw [hd] at hn
        cases r with
        | none => exact deployedBlocked_of_fuel hd
        | some item => simp at hn
    · intro hbl
      obtain ⟨n, hn⟩ := fuel_of_deployedBlocked hbl
      exact ⟨n, by simp [DeploymentBuilder.get_priority_fuel, hn]⟩

/-- Claim C10: `get_deployed_item` refines `get_item` — whenever
`get_deployed_item(path)` returns `Some item`, `get_item(path)` returns
`Some` of that same item (in the same number of loop iterations). -/
theorem claim10_deployed_refines_get (b : DeploymentBuilder) (path : Nat)
    (item : Item) (h : GetDeployedItemReturns b path (some item)) :
    GetItemReturns b path (some item) := by
  obtain ⟨n, hn⟩ := h
  exact ⟨n, get_item_fuel_of_deployed_fuel hn⟩

/-- Witness for claim C10 at a concrete two-node all-`Success` chain. -/
theorem claim10_witness :
    GetDeployedItemReturns exChain 1 (some exItem) ∧
      GetItemReturns exChain 1 (some exItem) := by
  have h : GetDeployedItemReturns exChain 1 (some exItem) := ⟨2, by decide⟩
  exact ⟨h, claim10_deployed_refines_get exChain 1 exItem h⟩

end Punktf
